import Mathlib

/-!
Verification development for `src/vi_estimator/keypoint_vio.cpp`
(`basalt::KeypointVioEstimator`).

The C++ estimator's numeric state lives in doubles; this embedding models
exact values in `ℚ` and keeps all bookkeeping (ordered maps keyed by
timestamps, sets of keyframe ids) as sorted `List ℤ` / association lists,
in iteration order matching `std::map` / `std::set` (ascending keys).

External kernels that are not part of the translated file (unprojection,
`triangulate`, `linearizeHelper`, `marginalizeHelper`, pose arithmetic,
`filterOutliers` from the bundle-adjustment base class) enter the model as
input data / oracle parameters: the control flow of `keypoint_vio.cpp`
around them is translated literally.

C++ fractional constants are written as normalised rationals
(`Rat.mk' 1 20` is the literal `0.05`) so that the kernel can evaluate the
model on concrete inputs.
-/

namespace KeypointVio

/-- Insertion into an ascending `std::set<int64_t>` / key set of a
`std::map`: keeps order, no duplicates. -/
def insertSorted (x : ℤ) : List ℤ → List ℤ
  | [] => [x]
  | y :: ys => if x < y then x :: y :: ys else if x = y then y :: ys else y :: insertSorted x ys

/-- Lookup in an association list modelling `std::map<int64_t, int>`
(`.count` / `.at` / `find`). -/
def assocFind (m : List (ℤ × ℤ)) (k : ℤ) : Option ℤ :=
  (m.find? (fun p => p.1 = k)).map (fun p => p.2)

/-- Insert-or-assign (`operator[] =`) on an association list. -/
def assocSet (m : List (ℤ × ℤ)) (k v : ℤ) : List (ℤ × ℤ) :=
  if m.any (fun p => p.1 = k) then
    m.map (fun p => if p.1 = k then (k, v) else p)
  else
    m ++ [(k, v)]

/-- The `num_points_connected[h]++` pattern of `measure` (creating the
entry with value `0` first when absent, then incrementing). -/
def assocBump (m : List (ℤ × ℤ)) (k : ℤ) : List (ℤ × ℤ) :=
  match assocFind m k with
  | none => m ++ [(k, 1)]
  | some v => assocSet m k (v + 1)

/-! ### Keyframe eviction: covisibility rule (marginalize, lines 546-566)

`num_points_connected` and `num_points_kf` are `std::map<int64_t, int>`;
they are passed as lookup functions `ℤ → Option ℤ` (`none` = no entry).
The C++ test is

  `num_points_connected.count(ids[i]) == 0 ||
   (num_points_connected.at(ids[i]) / num_points_kf.at(ids[i]) < 0.05)`

where the division is C++ `int` division (truncation toward zero,
`Int.tdiv`), whose result is then compared against the double `0.05`.
`covisCondE` evaluates this with the same short-circuit order; the outer
`Option` is `none` when the C++ evaluation would not return a value
(`num_points_kf.at` throwing on a missing entry, or integer division by
zero, which is undefined behaviour). -/

/-- Covisibility eviction test for one candidate keyframe `k`. -/
def covisCondE (npc npkf : ℤ → Option ℤ) (k : ℤ) : Option Bool :=
  match npc k with
  | none => some true
  | some c =>
    match npkf k with
    | none => none
    | some n =>
      if n = 0 then none
      else some (decide (((Int.tdiv c n : ℤ) : ℚ) < Rat.mk' 1 20))

/-- First element of the list satisfying an `Option Bool` test, with
evaluation failure (`none`) propagated: models a `for` loop with an early
`break` whose condition may throw. -/
def findFirstE (p : ℤ → Option Bool) : List ℤ → Option (Option ℤ)
  | [] => some none
  | k :: ks =>
    match p k with
    | none => none
    | some true => some (some k)
    | some false => findFirstE p ks

/-- The covisibility-rule scan of `marginalize`: walk
`ids[0] … ids[ids.size()-3]` (the two newest keyframes excluded) and pick
the first (oldest) candidate passing `covisCondE`.  The C++ bound
`ids.size() - 2` is `size_t` arithmetic; it is translated with ℕ
truncated subtraction, which agrees with it whenever `ids.size() ≥ 2` —
the loop that calls this scan only runs with
`ids.size() > max_kfs` (and for `max_kfs ≤ 1` the C++ bound would
underflow and read out of bounds; the surrounding loop model flags any
run in which the scan selects nothing). -/
def covisSelectE (npc npkf : ℤ → Option ℤ) (ids : List ℤ) : Option (Option ℤ) :=
  findFirstE (covisCondE npc npkf) (ids.take (ids.length - 2))

/-- Modelled from the spec: the spec reads the test as the real-valued
fraction `num_points_connected[k] / num_points_kf[k] < 0.05` (exact
division in `ℚ`), not C++ integer division. Kept for comparison with
`covisCondE`. -/
def covisCondSpec (npc npkf : ℤ → Option ℤ) (k : ℤ) : Bool :=
  match npc k with
  | none => true
  | some c => decide ((c : ℚ) / (((npkf k).getD 0 : ℤ) : ℚ) < Rat.mk' 1 20)

/-- Modelled from the spec: oldest candidate (two newest excluded)
satisfying the spec's real-valued covisibility test. -/
def covisSelectSpec (npc npkf : ℤ → Option ℤ) (ids : List ℤ) : Option ℤ :=
  (ids.take (ids.length - 2)).find? (covisCondSpec npc npkf)

/-- Equivalent integer form of the code's covisibility test (for
nonnegative counts the truncated quotient is `< 0.05` iff it is `0` iff
`c < n`). Used to state the amended claim C1. -/
def covisCondAmended (npc npkf : ℤ → Option ℤ) (k : ℤ) : Bool :=
  match npc k with
  | none => true
  | some c =>
    match npkf k with
    | none => false
    | some n => decide (c < n)

/-! ### Keyframe eviction: fallback distance rule (lines 568-601)

The score `sqrt(‖p_i − p_last‖) · Σ_j 1/(‖p_i − p_j‖ + 1e-5)` is double
arithmetic over `frame_poses` / `frame_states` translations (external
Sophus/Eigen data); the model takes the already-computed score of each
candidate as an oracle `score : ℤ → ℚ` and translates the arg-min loop
(`min_score` starts at `std::numeric_limits<double>::max()`, strict `<`
update, `min_score_id` starts at `-1`, i.e. `none`). -/

/-- Arg-min loop of the distance rule. -/
def distLoop (score : ℤ → ℚ) : List ℤ → Option (ℚ × ℤ) → Option (ℚ × ℤ)
  | [], best => best
  | k :: ks, none => distLoop score ks (some (score k, k))
  | k :: ks, some (m, mid) =>
    if score k < m then distLoop score ks (some (score k, k))
    else distLoop score ks (some (m, mid))

/-- Fallback distance rule: arg-min of the score over
`ids[0] … ids[ids.size()-3]`. -/
def distSelect (score : ℤ → ℚ) (ids : List ℤ) : Option ℤ :=
  (distLoop score (ids.take (ids.length - 2)) none).map (fun p => p.2)

/-- One pass of the keyframe-eviction choice (`id_to_marg`): the
covisibility rule first, the distance rule if it found nothing
(`id_to_marg < 0`). Outer `none` = the C++ evaluation throws / is UB. -/
def selectKfE (npc npkf : ℤ → Option ℤ) (score : ℤ → ℚ) (ids : List ℤ) :
    Option (Option ℤ) :=
  match covisSelectE npc npkf ids with
  | none => none
  | some (some k) => some (some k)
  | some none => some (distSelect score ids)

/-! ### Triangulation of a new landmark (measure, lines 380-436)

For each unconnected keypoint the code walks its candidate observations
`kp_obs` (a `std::map<TimeCamId, …>`, i.e. in ascending `TimeCamId`
order) with a `valid_kp` flag and `break` on the first success.  The
per-candidate geometry (`unproject` validity, the squared baseline
`T_0_1.translation().squaredNorm()`, and the `triangulate` output
`p0_triangulated` with its finiteness and component `[3]` = inverse
depth) is computed by external kernels; a `TriCandidate` carries those
outputs as data. -/

/-- Data of one triangulation candidate `(tcido, kobs)`. -/
structure TriCandidate where
  /-- `valid1 && valid2`: both unprojections succeeded. -/
  validUnproj : Bool
  /-- `T_0_1.translation().squaredNorm()`. -/
  baseline2 : ℚ
  /-- `p0_triangulated.array().isFinite().all()`. -/
  allFinite : Bool
  /-- `p0_triangulated[3]`, the inverse depth of the triangulated point. -/
  invDepth : ℚ
deriving DecidableEq

/-- Acceptance test on a triangulation result (lines 414-416):
finite, inverse depth strictly positive, inverse depth strictly below 3.0. -/
def triAccept (c : TriCandidate) : Bool :=
  c.allFinite && decide (0 < c.invDepth) && decide (c.invDepth < 3)

/-- The candidate loop: skip on failed unprojection, skip (continue)
when the squared baseline is below `vio_min_triangulation_dist²`
regardless of anything else, stop at the first accepted candidate
(`valid_kp = true` then `break`). Returns the candidate the landmark
position is built from, if any. -/
def triLoop (minTriangDist2 : ℚ) : List TriCandidate → Option TriCandidate
  | [] => none
  | c :: cs =>
    if c.validUnproj then
      if c.baseline2 < minTriangDist2 then triLoop minTriangDist2 cs
      else if triAccept c then some c
      else triLoop minTriangDist2 cs
    else triLoop minTriangDist2 cs

/-! ### Levenberg-Marquardt damping trial (optimize, lines 881-956)

One iteration of the inner `while (!step && max_iter > 0 && !converged)`
loop, for a fixed outer linearisation: `error_total` is the error at the
linearisation point (fixed across the trials of one outer iteration),
`applyInc` is the solved increment application (solve + applyInc +
updatePoints — the increment depends on the current `lambda` through
`Hdiag_lambda`), and `errorAt` recomputes the total error
(vision + IMU + marg prior + bias random walk) at the updated variables.
`backup()` / `restore()` become keeping / re-installing `vars`. -/

/-- Mutable data of one damping trial: the member variables `lambda`,
`lambda_vee` and the live optimisation variables. -/
structure LMStepState (V : Type) where
  lambda : ℚ
  lambda_vee : ℚ
  vars : V

/-- One damping trial. Returns (`step` accepted?, updated state).
Rejection (`f_diff < 0`): restore from backup,
`lambda = min(max_lambda, lambda_vee * lambda)`, `lambda_vee *= 2`.
Acceptance (`f_diff >= 0`): keep the update,
`lambda = max(min_lambda, lambda / 3)`, `lambda_vee = 2`. -/
def lmTrial {V : Type} (min_lambda max_lambda : ℚ) (applyInc : ℚ → V → V)
    (errorAt : V → ℚ) (error_total : ℚ) (s : LMStepState V) :
    Bool × LMStepState V :=
  let backup := s.vars
  let applied := applyInc s.lambda s.vars
  let after_error_total := errorAt applied
  let f_diff := error_total - after_error_total
  if f_diff < 0 then
    (false, { lambda := min max_lambda (s.lambda_vee * s.lambda),
              lambda_vee := 2 * s.lambda_vee, vars := backup })
  else
    (true, { lambda := max min_lambda (s.lambda / 3),
             lambda_vee := 2, vars := applied })

/-! ### Relinearisation scope on marginalisation (lines 633-651)

`obs_to_lin` collects, from the landmark database's observations
(host `TimeCamId` → target `TimeCamId` → keypoint observations), exactly
the groups whose host frame is being evicted (`kfs_to_marg`) restricted
to targets `≤ last_state_to_marg`; a host entry is created only when at
least one target survives the restriction (`operator[]` is reached only
inside the target test). -/

/-- `TimeCamId`: (frame timestamp, camera index). -/
structure TimeCamId where
  frame_id : ℤ
  cam_id : ℕ
deriving DecidableEq

/-- Observation store of the landmark database, host-grouped:
host → list of (target → keypoint ids observed). -/
abbrev ObsDB := List (TimeCamId × List (TimeCamId × List ℕ))

/-- The `obs_to_lin` filter of `marginalize`. -/
def obsToLin (kfs_to_marg : List ℤ) (last_state_to_marg : ℤ) (db : ObsDB) : ObsDB :=
  db.filterMap (fun hostGroup =>
    if hostGroup.1.frame_id ∈ kfs_to_marg then
      let kept := hostGroup.2.filter (fun tg => tg.1.frame_id ≤ last_state_to_marg)
      if kept.isEmpty then none else some (hostGroup.1, kept)
    else none)

/-- Membership of a single observation (host, target, keypoint id) in an
observation store. -/
def obsMemDB (db : ObsDB) (host target : TimeCamId) (kpt : ℕ) : Prop :=
  ∃ tmap, (host, tmap) ∈ db ∧ ∃ os, (target, os) ∈ tmap ∧ kpt ∈ os

/-! ### The estimator's bookkeeping state and the measure → optimize →
marginalize pipeline

`frame_states`, `frame_poses`, `kf_ids`, `imu_meas`, `num_points_kf` are
ordered maps / sets keyed by `int64_t` timestamps; here only the keys and
the integer payloads are tracked (the numeric pose/velocity/bias payloads
are external Sophus/Eigen data the control flow never branches on, except
through the distance-rule scores, which are an oracle).  `pinned` is the
set of frames whose `WithLin` linearisation flag is true.  `ok` goes
`false` when the C++ run would abort (a `BASALT_ASSERT` fires, `.at`
throws, iterator runs past the end) or not terminate (the eviction loop
spinning on `id_to_marg == -1`); every theorem about a completed run is
conditioned on / reports this flag. -/

/-- Configuration and calibration constants used by the translated control
flow.  `vio_new_kf_keypoints_thresh` is a double; it is carried as an
exact fraction `kfThreshNum / kfThreshDen` (`kfThreshDen > 0`) so the
comparison `connected0 / (connected0 + unconnected) < thresh` can be
evaluated exactly by cross-multiplication (see `newKfCond` and the
equivalence `newKfCond_iff`). -/
structure VioConfigM where
  max_states : ℕ
  max_kfs : ℕ
  kfThreshNum : ℤ
  kfThreshDen : ℤ
  min_frames_after_kf : ℤ
  init_pose_weight : ℚ
  init_ba_weight : ℚ
  init_bg_weight : ℚ
deriving DecidableEq

/-- Bookkeeping state of `KeypointVioEstimator`. -/
structure VioState where
  frame_states : List ℤ
  frame_poses : List ℤ
  kf_ids : List ℤ
  take_kf : Bool
  frames_after_kf : ℤ
  opt_started : Bool
  last_state_t : ℤ
  num_points_kf : List (ℤ × ℤ)
  /-- Landmark database: keypoint id → host frame id (`kf_id.frame_id`). -/
  lm_hosts : List (ℕ × ℤ)
  pinned : List ℤ
  /-- `marg_order.abs_order_map` in layout order: (timestamp, offset, block size). -/
  marg_order : List (ℤ × ℕ × ℕ)
  marg_H : List (List ℚ)
  marg_b : List ℚ
  ok : Bool
deriving DecidableEq

/-- The initial `marg_H` of the constructor (lines 66-87): zero 15×15
matrix with `vio_init_pose_weight` on diagonal entries 0-2 and 5,
`vio_init_ba_weight` on 9-11, `vio_init_bg_weight` on 12-14. -/
def initMargH (cfg : VioConfigM) : List (List ℚ) :=
  (List.range 15).map (fun i => (List.range 15).map (fun j =>
    if i = j then
      if i < 3 then cfg.init_pose_weight
      else if i = 5 then cfg.init_pose_weight
      else if 9 ≤ i ∧ i < 12 then cfg.init_ba_weight
      else if 12 ≤ i then cfg.init_bg_weight
      else 0
    else 0))

/-- State right after the constructor plus the first-frame initialisation
(lines 49-102 and 158-193): one frame state at `t0` created with its
linearisation flag already true, `take_kf = true`, `frames_after_kf = 0`,
`opt_started = false`, and `marg_order = {t0 ↦ (0, POSE_VEL_BIAS_SIZE)}`. -/
def initState (cfg : VioConfigM) (t0 : ℤ) : VioState :=
  { frame_states := [t0]
    frame_poses := []
    kf_ids := []
    take_kf := true
    frames_after_kf := 0
    opt_started := false
    last_state_t := t0
    num_points_kf := []
    lm_hosts := []
    pinned := [t0]
    marg_order := [(t0, 0, 15)]
    marg_H := initMargH cfg
    marg_b := List.replicate 15 0
    ok := true }

/-! #### The `aom` / `marg_order` layout assertions

Both `optimize` (lines 821-843) and `marginalize` (lines 500-542) build an
`AbsOrderMap` by appending `frame_poses` (block size `POSE_SIZE` = 6) then
frame states (block size `POSE_VEL_BIAS_SIZE` = 15) and assert, for every
pose and for every state while `aom.items < marg_order.abs_order_map.size()`,
that `marg_order` has an equal (offset, size) entry for the same key
(`marg_order.abs_order_map.at` throwing on a missing key also aborts). -/

/-- Lookup in the stored `marg_order`. -/
def margOrderFind (mo : List (ℤ × ℕ × ℕ)) (t : ℤ) : Option (ℕ × ℕ) :=
  (mo.find? (fun e => e.1 = t)).map (fun e => e.2)

/-- Walk the `frame_poses` part of the `aom` construction, carrying
(current offset, `aom.items`, all assertions held so far). -/
def posesCheck (mo : List (ℤ × ℕ × ℕ)) (poses : List ℤ) : ℕ × ℕ × Bool :=
  poses.foldl
    (fun acc t =>
      (acc.1 + 6, acc.2.1 + 1,
        acc.2.2 && decide (margOrderFind mo t = some (acc.1, 6))))
    (0, 0, true)

/-- Walk the frame-states part of the `aom` construction; the assertion is
only evaluated while `aom.items < marg_order.abs_order_map.size()`. -/
def statesCheck (mo : List (ℤ × ℕ × ℕ)) (start : ℕ × ℕ × Bool) (states : List ℤ) : Bool :=
  (states.foldl
    (fun acc t =>
      (acc.1 + 15, acc.2.1 + 1,
        acc.2.2 &&
          (if acc.2.1 < mo.length then decide (margOrderFind mo t = some (acc.1, 15)) else true)))
    start).2.2

/-- Bookkeeping effect of `optimize()` (lines 810-1054): runs when
`opt_started || frame_states.size() > 4`, sets the sticky `opt_started`
flag, and asserts the `aom` / `marg_order` layout equality.  The inner
LM/GN iterations (modelled by `lmTrial`) only move numeric variable
values, `lambda` and `lambda_vee`; they touch none of the tracked fields.
The `filterOutliers` call is applied by the caller (see `measure`). -/
def optimizeBk (s : VioState) : VioState :=
  if s.opt_started || decide (4 < s.frame_states.length) then
    let pc := posesCheck s.marg_order s.frame_poses
    let okAom := statesCheck s.marg_order pc s.frame_states
    { s with opt_started := true, ok := s.ok && okAom }
  else s

/-! #### `marginalize` (lines 488-808) -/

/-- Guard of the marginalisation body (line 491):
`frame_poses.size() > max_kfs || frame_states.size() >= max_states`. -/
def margGuard (cfg : VioConfigM) (s : VioState) : Bool :=
  decide (cfg.max_kfs < s.frame_poses.length) ||
    decide (cfg.max_states ≤ s.frame_states.length)

/-- `states_to_remove = frame_states.size() - max_states + 1` computed as
in C++ (`size_t` arithmetic then stored in an `int`: for the magnitudes
involved this equals the mathematical integer, possibly negative). -/
def statesToRemove (cfg : VioConfigM) (s : VioState) : ℤ :=
  (s.frame_states.length : ℤ) - (cfg.max_states : ℤ) + 1

/-- `last_state_to_marg`: the key reached by advancing an iterator
`states_to_remove` times from `frame_states.cbegin()` (a nonpositive
count leaves it at the oldest key; running past the end is UB → `none`). -/
def lastStateToMarg (cfg : VioConfigM) (s : VioState) : Option ℤ :=
  (s.frame_states.drop (statesToRemove cfg s).toNat).head?

/-- `states_to_marg_vel_bias`: frame states strictly older than
`last_state_to_marg` that are keyframes (pose kept, velocity/bias
marginalised). Empty when `lastStateToMarg` is undefined. -/
def statesToMargVelBias (cfg : VioConfigM) (s : VioState) : List ℤ :=
  match lastStateToMarg cfg s with
  | none => []
  | some last => s.frame_states.filter (fun t => decide (t < last) && s.kf_ids.contains t)

/-- `states_to_marg_all`: frame states strictly older than
`last_state_to_marg` that are not keyframes (dropped entirely). -/
def statesToMargAll (cfg : VioConfigM) (s : VioState) : List ℤ :=
  match lastStateToMarg cfg s with
  | none => []
  | some last => s.frame_states.filter (fun t => decide (t < last) && !s.kf_ids.contains t)

/-- The keyframe-eviction `while (kf_ids.size() > max_kfs &&
!states_to_marg_vel_bias.empty())` loop (lines 546-607), fuel-recursive.
Each pass selects `id_to_marg` by `selectKfE` over the current `kf_ids`,
adds it to `kfs_to_marg` / `poses_to_marg` and erases it from `kf_ids`.
When the selection throws / is UB (outer `none`) or yields no candidate
(`id_to_marg = -1`, on which the C++ loop would spin forever since the
erase is a no-op), the run is flagged not-ok.  Called with
`fuel = kf_ids.length`, which the loop can never exhaust; the fuel-zero
flag mirrors the loop guard for that unreachable case. -/
def evictLoop (max_kfs : ℕ) (npc npkf : ℤ → Option ℤ) (score : ℤ → ℚ)
    (velBiasNonempty : Bool) :
    ℕ → List ℤ → List ℤ → List ℤ × List ℤ × Bool
  | 0, kf_ids, marg =>
    (kf_ids, marg, !(decide (max_kfs < kf_ids.length) && velBiasNonempty))
  | fuel + 1, kf_ids, marg =>
    if decide (max_kfs < kf_ids.length) && velBiasNonempty then
      match selectKfE npc npkf score kf_ids with
      | some (some id) =>
        evictLoop max_kfs npc npkf score velBiasNonempty fuel
          (kf_ids.erase id) (id :: marg)
      | some none => (kf_ids, marg, false)
      | none => (kf_ids, marg, false)
    else (kf_ids, marg, true)

/-- Outputs of the external dense-linear-algebra helpers invoked by the
marginalisation body (`linearizeHelper` / `marginalizeHelper` /
`computeDelta`, all outside this file), plus the distance-rule scores and
the landmarks additionally dropped by `lmdb.removeKeyframes` because all
their observations targeted removed frames (the observation store itself
is external to the tracked state). -/
structure MargOracle where
  helperH : List (List ℚ)
  helperB : List ℚ
  score : ℤ → ℚ
  extraDeadLms : List ℕ

/-- The new `marg_order` built at the end of the body (lines 770-785):
surviving `frame_poses` (size 6 each) then `last_state_to_marg` (size 15). -/
def buildMargOrderNew (poses : List ℤ) (last : ℤ) : List (ℤ × ℕ × ℕ) :=
  (poses.enum.map (fun p => (p.2, 6 * p.1, 6))) ++ [(last, 6 * poses.length, 15)]

/-- `KeypointVioEstimator::marginalize(num_points_connected)`.  Returns
immediately unless `opt_started` and the window exceeds its bounds;
otherwise evicts states and keyframes and rebuilds the prior bookkeeping. -/
def marginalizeM (cfg : VioConfigM) (npc : ℤ → Option ℤ) (or : MargOracle)
    (s : VioState) : VioState :=
  if !s.opt_started then s
  else if margGuard cfg s then
    match lastStateToMarg cfg s with
    | none => { s with ok := false }
    | some last =>
      let poses_to_marg0 := s.frame_poses.filter (fun t => !s.kf_ids.contains t)
      let svb := statesToMargVelBias cfg s
      -- states_to_marg_all ∪ states_to_marg_vel_bias = states < last: both are
      -- erased from frame_states (lines 748-761), see fs2 below
      let pc := posesCheck s.marg_order s.frame_poses
      let okAom := statesCheck s.marg_order pc
        (s.frame_states.filter (fun t => decide (t ≤ last)))
      let npkfF : ℤ → Option ℤ := assocFind s.num_points_kf
      let ev := evictLoop cfg.max_kfs npc npkfF or.score (!svb.isEmpty)
        s.kf_ids.length s.kf_ids []
      let kfs_to_marg := ev.2.1
      let poses_to_marg := poses_to_marg0 ++ kfs_to_marg
      let okPin := !s.pinned.contains last
      let fs2 := s.frame_states.filter (fun t => !decide (t < last))
      let fp2 := (svb.foldl (fun l t => insertSorted t l) s.frame_poses).filter
        (fun t => !poses_to_marg.contains t)
      let lm2 := (s.lm_hosts.filter (fun p => !kfs_to_marg.contains p.2)).filter
        (fun p => !or.extraDeadLms.contains p.1)
      { s with
        frame_states := fs2
        frame_poses := fp2
        kf_ids := ev.1
        lm_hosts := lm2
        pinned := insertSorted last s.pinned
        marg_order := buildMargOrderNew fp2 last
        marg_H := or.helperH
        marg_b := or.helperB
        ok := s.ok && okAom && ev.2.2 && okPin }
  else s

/-! #### `measure` (lines 262-482) -/

/-- Per-frame inputs of `measure`: the frame timestamp, whether a
preintegration from the previous frame is present (`meas.get()`), the
optical-flow keypoint ids per camera (index = `cam_id`; the 2-D
translations are payload the control flow never branches on), and the
outcomes of the external kernels: the triangulation verdict per new
keypoint (whether some candidate passes `triLoop`), the landmarks removed
by `filterOutliers` inside `optimize`, and the marginalisation oracle. -/
structure MeasureInput where
  t : ℤ
  hasImu : Bool
  obs : List (List ℕ)
  triOk : ℕ → Bool
  filterRemoved : List ℕ
  margOracle : MargOracle

/-- `lmdb.landmarkExists(kpt_id)`. -/
def lmExists (db : List (ℕ × ℤ)) (kpt : ℕ) : Bool :=
  db.any (fun p => p.1 = kpt)

/-- Host frame id of a landmark (`lmdb.getLandmark(kpt_id).kf_id.frame_id`). -/
def lmHost (db : List (ℕ × ℤ)) (kpt : ℕ) : Option ℤ :=
  (db.find? (fun p => p.1 = kpt)).map (fun p => p.2)

/-- `num_points_connected` built by the data-association loop: for every
observation (every camera) of a keypoint already in the landmark
database, bump the counter of the landmark's host frame. -/
def buildNpc (db : List (ℕ × ℤ)) (obs : List (List ℕ)) : List (ℤ × ℤ) :=
  obs.foldl
    (fun m cam =>
      cam.foldl
        (fun m2 kpt =>
          match lmHost db kpt with
          | some h => assocBump m2 h
          | none => m2)
        m)
    []

/-- `connected0`: camera-0 observations of keypoints already in the
landmark database. -/
def connected0 (db : List (ℕ × ℤ)) (obs : List (List ℕ)) : ℕ :=
  ((obs.headD []).filter (fun k => lmExists db k)).length

/-- `unconnected_obs0`: the set of camera-0 keypoints not in the landmark
database (an `unordered_set`; only its size and membership matter). -/
def unconnected0 (db : List (ℕ × ℤ)) (obs : List (List ℕ)) : List ℕ :=
  ((obs.headD []).filter (fun k => !lmExists db k)).eraseDups

/-- The new-keyframe test (lines 337-341):
`double(connected0) / (connected0 + unconnected_obs0.size()) <
vio_new_kf_keypoints_thresh && frames_after_kf > vio_min_frames_after_kf`.
With `connected0 + size == 0` the double quotient is NaN and the
comparison is false; otherwise, with `kfThreshDen > 0`, the ratio
comparison is the integer cross-multiplication below (see the
equivalence `newKfCond_iff`). -/
def newKfCond (cfg : VioConfigM) (c0 u : ℕ) (fak : ℤ) : Bool :=
  (decide (0 < c0 + u) &&
    decide ((c0 : ℤ) * cfg.kfThreshDen < cfg.kfThreshNum * ((c0 : ℤ) + (u : ℤ)))) &&
  decide (cfg.min_frames_after_kf < fak)

/-- `KeypointVioEstimator::measure(opt_flow_meas, meas)`: state
propagation, data association, keyframe decision, triangulation
bookkeeping, `optimize()` (including its `filterOutliers`), then
`marginalize(num_points_connected)`. -/
def measure (cfg : VioConfigM) (inp : MeasureInput) (s : VioState) : VioState :=
  -- state propagation (lines 265-285): predict and insert the new frame
  -- state, update last_state_t_ns
  let s1 :=
    if inp.hasImu then
      { s with frame_states := insertSorted inp.t s.frame_states,
               last_state_t := inp.t }
    else s
  -- data association (lines 293-333)
  let c0 := connected0 s1.lm_hosts inp.obs
  let unc := unconnected0 s1.lm_hosts inp.obs
  let npc := buildNpc s1.lm_hosts inp.obs
  -- keyframe decision (lines 337-341): the flag is only ever set here,
  -- and is consumed (reset to false) by the branch below
  let tk := s1.take_kf || newKfCond cfg c0 unc.length s1.frames_after_kf
  let s2 :=
    if tk then
      -- keyframe branch (lines 348-438): reset flags, record the keyframe
      -- id, triangulate the unconnected camera-0 keypoints (external
      -- geometry summarised by inp.triOk) hosting the accepted ones at
      -- (frame.t, cam 0), and store num_points_kf
      let accepted := unc.filter inp.triOk
      { s1 with
        take_kf := false
        frames_after_kf := 0
        kf_ids := insertSorted s1.last_state_t s1.kf_ids
        lm_hosts := s1.lm_hosts ++ accepted.map (fun k => (k, inp.t))
        num_points_kf := assocSet s1.num_points_kf inp.t (accepted.length : ℤ) }
    else
      { s1 with frames_after_kf := s1.frames_after_kf + 1 }
  -- optimize (line 444); its filterOutliers outcome is external data
  let s3 := optimizeBk s2
  let s4 := { s3 with lm_hosts := s3.lm_hosts.filter (fun p => !inp.filterRemoved.contains p.1) }
  -- marginalize (line 446)
  marginalizeM cfg (assocFind npc) inp.margOracle s4

/-! ### A concrete execution (claim C5)

Default configuration (`max_states = 3`, `max_kfs = 7`,
`vio_min_frames_after_kf = 0`, threshold 1/2) and a run of 22 frames in
which every third frame (1, 4, 7, …, 22) observes exactly one fresh
camera-0 keypoint (so the ratio is 0 < 1/2 and the frame becomes a
keyframe) and the other frames observe nothing (ratio 0/0 = NaN, not a
keyframe).  Keyframes are spaced three frames apart, so whenever the state
marginalised out two frames later is examined it is not a keyframe:
`states_to_marg_vel_bias` is empty exactly at the 8th keyframe's own
`measure` call, the eviction loop is skipped, and the call ends with
`|kf_ids| = 8 > max_kfs`. -/

/-- Default-like configuration for the trace. -/
def traceCfg : VioConfigM :=
  { max_states := 3
    max_kfs := 7
    kfThreshNum := 1
    kfThreshDen := 2
    min_frames_after_kf := 0
    init_pose_weight := 100000000
    init_ba_weight := 10
    init_bg_weight := 100 }

/-- Oracle with empty helper outputs, zero scores, no extra landmark
removals (none of these is consulted on the trace's control path). -/
def traceOracle : MargOracle :=
  { helperH := [], helperB := [], score := fun _ => 0, extraDeadLms := [] }

/-- Input of frame `t` of the trace. -/
def traceInput (t : ℤ) : MeasureInput :=
  { t := t
    hasImu := decide (t ≠ 1)
    obs := if t % 3 = 1 then [[t.toNat]] else [[]]
    triOk := fun _ => true
    filterRemoved := []
    margOracle := traceOracle }

/-- The state after `measure` on frames 1, 2, …, 22 from the initial
state. -/
def c5Trace : VioState :=
  (List.range 22).foldl
    (fun s i => measure traceCfg (traceInput ((i : ℤ) + 1)) s)
    (initState traceCfg 1)

/-! ### Concrete data for the counterexamples of claims C1, C2, C3 -/

/-- Concrete `num_points_connected` refuting C1: keyframe 10 has 1
connected point. -/
def c1Npc : ℤ → Option ℤ := fun k => if k = 10 then some 1 else none

/-- Concrete `num_points_kf` refuting C1: keyframe 10 hosted 2 points, so
the true fraction is 1/2 ≥ 0.05 while the C++ integer quotient is 0. -/
def c1Npkf : ℤ → Option ℤ := fun k => if k = 10 then some 2 else none

/-- Keyframe ids for the C1 counterexample (only keyframe 10 is a
candidate; 20 and 30 are the protected two newest). -/
def c1Ids : List ℤ := [10, 20, 30]

/-- Concrete error function for the C2 counterexample: the total error is
5 whatever the variables are. -/
def c2Error : ℚ → ℚ := fun _ => 5

/-- Concrete increment application for the C2 counterexample. -/
def c2Inc : ℚ → ℚ → ℚ := fun _ v => v + 1

/-- Concrete trial state for the C2 counterexample:
`lambda = 1`, `lambda_vee = 2`. -/
def c2S0 : LMStepState ℚ := { lambda := 1, lambda_vee := 2, vars := 0 }

/-- Input for the C3 counterexample: the very first visual frame, with no
keypoint observations at all — the ratio test is `0/0` (NaN in C++),
hence false. -/
def c3Input : MeasureInput :=
  { t := 1
    hasImu := false
    obs := [[]]
    triOk := fun _ => true
    filterRemoved := []
    margOracle := traceOracle }

/-! ## Helper lemmas -/

/-- For nonnegative `c` and positive `n`, the C++ test
`(c / n) < 0.05` on the truncated integer quotient holds iff `c < n`. -/
theorem tdiv_lt_twentieth_iff (c n : ℤ) (hc : 0 ≤ c) (hn : 0 < n) :
    (((Int.tdiv c n : ℤ) : ℚ) < Rat.mk' 1 20) ↔ c < n := by
  constructor
  · intro h
    by_contra hle
    push_neg at hle
    have h1 : (1 : ℤ) ≤ Int.tdiv c n := by
      rw [Int.tdiv_eq_ediv hc hn.le]
      exact (Int.le_ediv_iff_mul_le hn).mpr (by omega)
    have h2 : ((1 : ℤ) : ℚ) ≤ ((Int.tdiv c n : ℤ) : ℚ) := by exact_mod_cast h1
    have h3 : Rat.mk' 1 20 < ((1 : ℤ) : ℚ) := by decide
    exact absurd (lt_trans (lt_of_le_of_lt h2 h) h3) (lt_irrefl _)
  · intro h
    have h0 : Int.tdiv c n = 0 := by
      rw [Int.tdiv_eq_ediv hc hn.le]
      exact Int.ediv_eq_zero_of_lt hc h
    rw [h0]
    decide

theorem findFirstE_mem {p : ℤ → Option Bool} {l : List ℤ} {k : ℤ}
    (h : findFirstE p l = some (some k)) : k ∈ l := by
  induction l with
  | nil => simp [findFirstE] at h
  | cons a as ih =>
    rw [findFirstE] at h
    match hp : p a with
    | none => rw [hp] at h; exact absurd h (by simp)
    | some true => rw [hp] at h; simp at h; simp [h]
    | some false => rw [hp] at h; exact List.mem_cons_of_mem a (ih h)

theorem findFirstE_eq_find? {p : ℤ → Option Bool} {q : ℤ → Bool} {l : List ℤ}
    (h : ∀ k ∈ l, p k = some (q k)) : findFirstE p l = some (l.find? q) := by
  induction l with
  | nil => simp [findFirstE, List.find?]
  | cons a as ih =>
    have ha := h a (List.mem_cons_self a as)
    rw [findFirstE, ha, List.find?]
    match hq : q a with
    | true => simp
    | false =>
      simp only
      exact ih (fun k hk => h k (List.mem_cons_of_mem a hk))

theorem findFirstE_isSome {p : ℤ → Option Bool} {l : List ℤ}
    (h : ∀ k ∈ l, p k ≠ none) : findFirstE p l ≠ none := by
  induction l with
  | nil => simp [findFirstE]
  | cons a as ih =>
    rw [findFirstE]
    match hp : p a with
    | none => exact absurd hp (h a (List.mem_cons_self a as))
    | some true => simp
    | some false => exact ih (fun k hk => h k (List.mem_cons_of_mem a hk))

theorem distLoop_mem {score : ℤ → ℚ} {l : List ℤ} {acc : Option (ℚ × ℤ)}
    {r : ℚ × ℤ} (h : distLoop score l acc = some r) :
    r.2 ∈ l ∨ ∃ q, acc = some q ∧ q.2 = r.2 := by
  induction l generalizing acc with
  | nil =>
    rw [distLoop] at h
    exact Or.inr ⟨r, h, rfl⟩
  | cons a as ih =>
    match acc with
    | none =>
      rw [distLoop] at h
      rcases ih h with hm | ⟨q, hq, hq2⟩
      · exact Or.inl (List.mem_cons_of_mem a hm)
      · have hqa : q = (score a, a) := by injection hq with h2; exact h2.symm
        rw [hqa] at hq2
        exact Or.inl (by rw [← hq2]; exact List.mem_cons_self a as)
    | some (m, mid) =>
      rw [distLoop] at h
      by_cases hlt : score a < m
      · rw [if_pos hlt] at h
        rcases ih h with hm | ⟨q, hq, hq2⟩
        · exact Or.inl (List.mem_cons_of_mem a hm)
        · have hqa : q = (score a, a) := by injection hq with h2; exact h2.symm
          rw [hqa] at hq2
          exact Or.inl (by rw [← hq2]; exact List.mem_cons_self a as)
      · rw [if_neg hlt] at h
        rcases ih h with hm | ⟨q, hq, hq2⟩
        · exact Or.inl (List.mem_cons_of_mem a hm)
        · have hqa : q = (m, mid) := by injection hq with h2; exact h2.symm
          rw [hqa] at hq2
          exact Or.inr ⟨(m, mid), rfl, hq2⟩

theorem distSelect_mem {score : ℤ → ℚ} {ids : List ℤ} {k : ℤ}
    (h : distSelect score ids = some k) : k ∈ ids.take (ids.length - 2) := by
  unfold distSelect at h
  match hl : distLoop score (ids.take (ids.length - 2)) none with
  | none => rw [hl] at h; exact absurd h (by simp)
  | some r =>
    rw [hl] at h
    simp at h
    rcases distLoop_mem hl with hm | ⟨q, hq, _⟩
    · rw [← h]; exact hm
    · exact absurd hq (by simp)

theorem selectKfE_mem {npc npkf : ℤ → Option ℤ} {score : ℤ → ℚ}
    {ids : List ℤ} {k : ℤ} (h : selectKfE npc npkf score ids = some (some k)) :
    k ∈ ids.take (ids.length - 2) := by
  unfold selectKfE at h
  match hc : covisSelectE npc npkf ids with
  | none => rw [hc] at h; exact absurd h (by simp)
  | some (some k0) =>
    rw [hc] at h
    simp at h
    unfold covisSelectE at hc
    rw [← h]
    exact findFirstE_mem hc
  | some none =>
    rw [hc] at h
    simp at h
    exact distSelect_mem h

/-! ## Claims C1, C9, C8: the keyframe-eviction selection -/

/-- C1 (counterexample): with `num_points_connected[10] = 1` and
`num_points_kf[10] = 2`, the code's covisibility rule (integer division:
`1 / 2 == 0 < 0.05`) selects keyframe 10 even though the real-valued
fraction of the claim is `1/2 ≥ 0.05`, under which no keyframe satisfies
the claimed rule. -/
theorem claim_C1_counterexample :
    covisSelectE c1Npc c1Npkf c1Ids = some (some 10) ∧
    covisCondSpec c1Npc c1Npkf 10 = false ∧
    covisSelectSpec c1Npc c1Npkf c1Ids = none := by
  have e1 : c1Npc 10 = some 1 := by simp [c1Npc]
  have e2 : c1Npkf 10 = some 2 := by simp [c1Npkf]
  have h2 : covisCondSpec c1Npc c1Npkf 10 = false := by
    simp only [covisCondSpec, e1, e2, Option.getD_some]
    rw [decide_eq_false_iff_not]
    norm_num [Rat.mk'_eq_divInt, Rat.divInt_eq_div]
  refine ⟨by decide, h2, ?_⟩
  have ht : c1Ids.take (c1Ids.length - 2) = [10] := by decide
  unfold covisSelectSpec
  rw [ht]
  simp [List.find?, h2]

/-- C1 (amended): under the data invariant that every keyframe with a
`num_points_connected` entry has a nonnegative count and a positive
`num_points_kf` entry, the covisibility rule selects the oldest candidate
`k` (the two newest excluded) such that `k` has no entry in
`num_points_connected`, or the integer quotient
`num_points_connected[k] / num_points_kf[k]` is less than 0.05 —
equivalently, `num_points_connected[k] < num_points_kf[k]`. -/
theorem claim_C1_amended (npc npkf : ℤ → Option ℤ) (ids : List ℤ)
    (h : ∀ k ∈ ids, ∀ c, npc k = some c → 0 ≤ c ∧ ∃ n, npkf k = some n ∧ 0 < n) :
    covisSelectE npc npkf ids =
      some ((ids.take (ids.length - 2)).find? (covisCondAmended npc npkf)) := by
  unfold covisSelectE
  refine findFirstE_eq_find? (fun k hk => ?_)
  have hk2 : k ∈ ids := List.take_subset _ _ hk
  match hc : npc k with
  | none => simp [covisCondE, covisCondAmended, hc]
  | some c =>
    obtain ⟨hcnn, n, hn, hnpos⟩ := h k hk2 c hc
    have hne : ¬n = 0 := hnpos.ne'
    simp only [covisCondE, covisCondAmended, hc, hn, hne, if_false, Option.some.injEq]
    exact decide_eq_decide.mpr (tdiv_lt_twentieth_iff c n hcnn hnpos)

/-- Witness for C1 (amended) at the counterexample data (which satisfies
the invariant): the selection equals the amended rule's first match. -/
theorem claim_C1_amended_witness :
    covisSelectE c1Npc c1Npkf c1Ids =
      some ((c1Ids.take (c1Ids.length - 2)).find? (covisCondAmended c1Npc c1Npkf)) :=
  claim_C1_amended c1Npc c1Npkf c1Ids
    (by
      intro k hk c hc
      fin_cases hk <;> simp_all [c1Npc, c1Npkf]
      omega)

/-- C9: the hash-lookup disjunct short-circuits: a candidate with no
`num_points_connected` entry is evictable without the division being
evaluated (the test's value is `some true` for every `num_points_kf`,
including one with a zero or missing entry), and under the invariant that
every keyframe with a `num_points_connected` entry has a nonzero
`num_points_kf` entry (which holds since connected points are hosted
landmarks counted at keyframe creation) the covisibility scan never hits
a division by zero or a missing-entry throw. -/
theorem claim_C9 (npc npkf : ℤ → Option ℤ) (ids : List ℤ)
    (hinv : ∀ k c, npc k = some c → ∃ n, npkf k = some n ∧ n ≠ 0) :
    covisSelectE npc npkf ids ≠ none ∧
    ∀ k, npc k = none → ∀ npkf2, covisCondE npc npkf2 k = some true := by
  constructor
  · unfold covisSelectE
    refine findFirstE_isSome (fun k _ => ?_)
    match hc : npc k with
    | none => simp [covisCondE, hc]
    | some c =>
      obtain ⟨n, hn, hn0⟩ := hinv k c hc
      simp [covisCondE, hc, hn, hn0]
  · intro k hk npkf2
    simp [covisCondE, hk]

/-- Witness for C9 at the C1 counterexample data. -/
theorem claim_C9_witness :
    covisSelectE c1Npc c1Npkf c1Ids ≠ none ∧ covisCondE c1Npc c1Npkf 40 = some true := by
  have h := claim_C9 c1Npc c1Npkf c1Ids
    (by
      intro k c hc
      by_cases hk : k = 10
      · exact ⟨2, by simp [c1Npkf, hk], by omega⟩
      · simp [c1Npc, hk] at hc)
  exact ⟨h.1, h.2 40 (by simp [c1Npc]) c1Npkf⟩

/-- C8: a pass of the keyframe-eviction selection (covisibility rule, or
the fallback distance rule) only ever returns a candidate among
`ids[0] … ids[ids.size()-3]`, never one of the two newest keyframes; with
`|kf_ids| ≤ 2` the candidate range is empty and nothing is selected. -/
theorem claim_C8 (npc npkf : ℤ → Option ℤ) (score : ℤ → ℚ) (ids : List ℤ)
    (hnd : ids.Nodup) :
    (∀ k, selectKfE npc npkf score ids = some (some k) →
      k ∈ ids.take (ids.length - 2) ∧ k ∉ ids.drop (ids.length - 2)) ∧
    (ids.length ≤ 2 → selectKfE npc npkf score ids = some none) := by
  constructor
  · intro k hk
    have hmem := selectKfE_mem hk
    refine ⟨hmem, fun hd => ?_⟩
    exact (List.disjoint_take_drop hnd le_rfl) hmem hd
  · intro hlen
    have ht : ids.take (ids.length - 2) = [] := by
      have h0 : ids.length - 2 = 0 := by omega
      rw [h0, List.take_zero]
    unfold selectKfE covisSelectE distSelect
    rw [ht]
    rfl

/-- Witness for C8 on a concrete 4-element keyframe set and on a concrete
2-element keyframe set. -/
theorem claim_C8_witness :
    ((10 : ℤ) ∈ ([10, 20, 30, 40] : List ℤ).take 2 →
      (10 : ℤ) ∉ ([10, 20, 30, 40] : List ℤ).drop 2) ∧
    selectKfE c1Npc c1Npkf (fun _ => 0) [10, 20] = some none := by
  constructor
  · intro hmem
    exact ((claim_C8 c1Npc c1Npkf (fun _ => 0) [10, 20, 30, 40] (by decide)).1 10
      (by decide)).2
  · exact (claim_C8 c1Npc c1Npkf (fun _ => 0) [10, 20] (by decide)).2 (by decide)

/-! ## Claim C4: triangulation gating -/

/-- C4: the candidate loop returns the first candidate whose
unprojections are valid, whose squared baseline is not below
`vio_min_triangulation_dist²` (candidates below it are skipped regardless
of anything else), and whose triangulation passes the acceptance test;
and the acceptance test holds exactly when the result is finite with
inverse depth strictly between 0 and 3 — in particular inverse depth
exactly 0 or at least 3 is rejected. -/
theorem claim_C4 (minTriangDist2 : ℚ) (cands : List TriCandidate) :
    triLoop minTriangDist2 cands =
      cands.find? (fun c =>
        c.validUnproj && !decide (c.baseline2 < minTriangDist2) && triAccept c) ∧
    (∀ c : TriCandidate,
      triAccept c = true ↔ (c.allFinite = true ∧ 0 < c.invDepth ∧ c.invDepth < 3)) ∧
    (∀ c : TriCandidate, c.invDepth = 0 ∨ 3 ≤ c.invDepth → triAccept c = false) := by
  refine ⟨?_, ?_, ?_⟩
  · induction cands with
    | nil => rfl
    | cons c cs ih =>
      rw [triLoop, List.find?]
      by_cases hv : c.validUnproj
      · by_cases hb : c.baseline2 < minTriangDist2
        · simp [hv, hb, ih]
        · by_cases ha : triAccept c
          · simp [hv, hb, ha]
          · simp [hv, hb, ha, ih]
      · simp [hv, ih, Bool.not_eq_true _ ▸ hv]
  · intro c
    unfold triAccept
    constructor
    · intro h
      simp only [Bool.and_eq_true, decide_eq_true_eq] at h
      exact ⟨h.1.1, h.1.2, h.2⟩
    · intro ⟨h1, h2, h3⟩
      simp [h1, h2, h3]
  · intro c hc
    unfold triAccept
    rcases hc with h0 | h3
    · simp [h0]
    · have : ¬c.invDepth < 3 := not_lt.mpr h3
      simp [this]

/-- Witness for C4: on a two-candidate list where the first candidate has
a large baseline but inverse depth exactly 3 (rejected) and the second is
accepted, the loop returns the second candidate. -/
theorem claim_C4_witness :
    triLoop 1 [⟨true, 4, true, 3⟩, ⟨true, 4, true, 1⟩] =
        some ⟨true, 4, true, 1⟩ ∧
      triAccept ⟨true, 4, true, 3⟩ = false := by
  refine ⟨?_, (claim_C4 1 []).2.2 ⟨true, 4, true, 3⟩ (Or.inr le_rfl)⟩
  rw [(claim_C4 1 [⟨true, 4, true, 3⟩, ⟨true, 4, true, 1⟩]).1]
  decide

/-! ## Claim C2: the Levenberg-Marquardt damping trial -/

/-- C2 (counterexample): with `error_total = 5` and the recomputed error
also 5, `f_diff = 0` is not `< 0`, so the code accepts the step — yet the
total error did not strictly decrease.  (The spec's acceptance test
`Δerror > 0` would have rejected this trial.) -/
theorem claim_C2_counterexample :
    (lmTrial 1 100 c2Inc c2Error 5 c2S0).1 = true ∧
    ¬ c2Error (lmTrial 1 100 c2Inc c2Error 5 c2S0).2.vars < 5 := by
  constructor
  · simp [lmTrial, c2Error, c2Inc, c2S0]
  · simp [lmTrial, c2Error, c2Inc, c2S0]

/-- C2 (amended): in every damping trial, if the step is accepted the
total error does not increase (acceptance happens exactly when
`f_diff ≥ 0`; equality is accepted without a strict decrease),
`lambda ← max(min_lambda, lambda/3)` and `lambda_vee ← 2`; if the step is
rejected the error strictly increased, the live variables are restored
from backup, `lambda ← min(max_lambda, lambda_vee·lambda)` — a strict
increase whenever `lambda < max_lambda` — and `lambda_vee` doubles; and
`lambda` stays within `[min_lambda, max_lambda]`. -/
theorem claim_C2_amended {V : Type} (min_lambda max_lambda : ℚ)
    (applyInc : ℚ → V → V) (errorAt : V → ℚ) (error_total : ℚ)
    (s : LMStepState V)
    (hmin : 0 < min_lambda) (hmm : min_lambda ≤ max_lambda)
    (hlo : min_lambda ≤ s.lambda) (hhi : s.lambda ≤ max_lambda)
    (hvee : 2 ≤ s.lambda_vee) :
    ((lmTrial min_lambda max_lambda applyInc errorAt error_total s).1 = true →
      errorAt (lmTrial min_lambda max_lambda applyInc errorAt error_total s).2.vars ≤ error_total ∧
      (lmTrial min_lambda max_lambda applyInc errorAt error_total s).2.vars =
        applyInc s.lambda s.vars ∧
      (lmTrial min_lambda max_lambda applyInc errorAt error_total s).2.lambda =
        max min_lambda (s.lambda / 3) ∧
      (lmTrial min_lambda max_lambda applyInc errorAt error_total s).2.lambda_vee = 2) ∧
    ((lmTrial min_lambda max_lambda applyInc errorAt error_total s).1 = false →
      error_total < errorAt (applyInc s.lambda s.vars) ∧
      (lmTrial min_lambda max_lambda applyInc errorAt error_total s).2.vars = s.vars ∧
      (lmTrial min_lambda max_lambda applyInc errorAt error_total s).2.lambda =
        min max_lambda (s.lambda_vee * s.lambda) ∧
      (lmTrial min_lambda max_lambda applyInc errorAt error_total s).2.lambda_vee =
        2 * s.lambda_vee ∧
      s.lambda ≤ (lmTrial min_lambda max_lambda applyInc errorAt error_total s).2.lambda ∧
      (s.lambda < max_lambda →
        s.lambda < (lmTrial min_lambda max_lambda applyInc errorAt error_total s).2.lambda)) ∧
    (min_lambda ≤ (lmTrial min_lambda max_lambda applyInc errorAt error_total s).2.lambda ∧
      (lmTrial min_lambda max_lambda applyInc errorAt error_total s).2.lambda ≤ max_lambda) := by
  have hl0 : 0 < s.lambda := lt_of_lt_of_le hmin hlo
  have hveelam : s.lambda ≤ s.lambda_vee * s.lambda := by
    nlinarith
  unfold lmTrial
  by_cases hf : error_total - errorAt (applyInc s.lambda s.vars) < 0
  · rw [if_pos hf]
    refine ⟨fun h => absurd h (by simp), fun _ => ?_, ?_, ?_⟩
    · refine ⟨by linarith, rfl, rfl, rfl, ?_, ?_⟩
      · exact le_min hhi hveelam
      · intro hlt
        refine lt_min hlt ?_
        nlinarith
    · exact le_min hmm (hlo.trans hveelam)
    · exact min_le_left _ _
  · rw [if_neg hf]
    refine ⟨fun _ => ⟨by linarith, rfl, rfl, rfl⟩, fun h => absurd h (by simp), ?_, ?_⟩
    · exact le_max_left _ _
    · refine max_le hmm ?_
      calc s.lambda / 3 ≤ s.lambda := by linarith
        _ ≤ max_lambda := hhi

/-- Witness for C2 (amended) at the counterexample inputs: the resulting
`lambda` stays within `[1, 100]`. -/
theorem claim_C2_amended_witness :
    (1 : ℚ) ≤ (lmTrial 1 100 c2Inc c2Error 5 c2S0).2.lambda ∧
    (lmTrial 1 100 c2Inc c2Error 5 c2S0).2.lambda ≤ 100 :=
  (claim_C2_amended 1 100 c2Inc c2Error 5 c2S0 (by norm_num) (by norm_num)
    (by norm_num [c2S0]) (by norm_num [c2S0]) (by norm_num [c2S0])).2.2

/-! ## Claim C7: relinearisation scope on marginalisation -/

/-- C7: an observation (host, target, keypoint) is in the relinearisation
set `obs_to_lin` iff it is in the landmark database's observation store,
its host frame is in `kfs_to_marg`, and its target frame id is
`≤ last_state_to_marg`; in particular observations hosted by surviving
keyframes are never relinearised. -/
theorem claim_C7 (kfs_to_marg : List ℤ) (last_state_to_marg : ℤ) (db : ObsDB)
    (host target : TimeCamId) (kpt : ℕ) :
    obsMemDB (obsToLin kfs_to_marg last_state_to_marg db) host target kpt ↔
      obsMemDB db host target kpt ∧ host.frame_id ∈ kfs_to_marg ∧
        target.frame_id ≤ last_state_to_marg := by
  constructor
  · rintro ⟨tmap, hmem, os, hos, hk⟩
    rw [obsToLin, List.mem_filterMap] at hmem
    obtain ⟨a, ha, hfa⟩ := hmem
    by_cases hin : a.1.frame_id ∈ kfs_to_marg
    · rw [if_pos hin] at hfa
      by_cases hemp : (a.2.filter (fun tg => decide (tg.1.frame_id ≤ last_state_to_marg))).isEmpty
      · rw [if_pos hemp] at hfa
        exact absurd hfa (by simp)
      · rw [if_neg hemp] at hfa
        have hfa2 : (a.1, a.2.filter (fun tg => decide (tg.1.frame_id ≤ last_state_to_marg))) =
            (host, tmap) := by injection hfa
        have h1 : a.1 = host := congrArg Prod.fst hfa2
        have h2 : a.2.filter (fun tg => decide (tg.1.frame_id ≤ last_state_to_marg)) = tmap :=
          congrArg Prod.snd hfa2
        rw [← h2] at hos
        have hos2 := List.mem_filter.mp hos
        refine ⟨⟨a.2, ?_, os, hos2.1, hk⟩, h1 ▸ hin, of_decide_eq_true hos2.2⟩
        rw [← h1]
        exact (Prod.mk.eta (p := a)) ▸ ha
    · rw [if_neg hin] at hfa
      exact absurd hfa (by simp)
  · rintro ⟨⟨tmap, hmem, os, hos, hk⟩, hhost, htgt⟩
    refine ⟨tmap.filter (fun tg => decide (tg.1.frame_id ≤ last_state_to_marg)), ?_, os, ?_, hk⟩
    · rw [obsToLin, List.mem_filterMap]
      refine ⟨(host, tmap), hmem, ?_⟩
      have hemp : ¬(tmap.filter (fun tg => decide (tg.1.frame_id ≤ last_state_to_marg))).isEmpty := by
        rw [List.isEmpty_iff]
        intro hnil
        have : (target, os) ∈ tmap.filter (fun tg => decide (tg.1.frame_id ≤ last_state_to_marg)) :=
          List.mem_filter.mpr ⟨hos, decide_eq_true htgt⟩
        rw [hnil] at this
        exact absurd this (List.not_mem_nil _)
      simp only [if_pos hhost, if_neg hemp]
    · exact List.mem_filter.mpr ⟨hos, decide_eq_true htgt⟩

/-! ## Claim C6: marginalisation is a no-op inside the window bounds -/

/-- C6: if `opt_started` is false, or `frame_poses.size() ≤ max_kfs` and
`frame_states.size() < max_states`, then `marginalize` changes nothing —
the returned state (including `marg_H`, `marg_b`, `marg_order`,
`frame_states`, `frame_poses`, `kf_ids` and the landmark database) is
exactly the input state. -/
theorem claim_C6 (cfg : VioConfigM) (npc : ℤ → Option ℤ) (or : MargOracle)
    (s : VioState)
    (h : s.opt_started = false ∨
      (s.frame_poses.length ≤ cfg.max_kfs ∧ s.frame_states.length < cfg.max_states)) :
    marginalizeM cfg npc or s = s := by
  unfold marginalizeM
  cases hop : s.opt_started with
  | false => simp
  | true =>
    rcases h with h | ⟨h1, h2⟩
    · rw [hop] at h
      exact absurd h (by simp)
    · have hg : margGuard cfg s = false := by
        simp [margGuard, not_lt.mpr h1, not_le.mpr h2]
      simp [hg]

/-- Witness for C6: on the freshly initialised estimator (where
`opt_started` is still false) `marginalize` returns the state unchanged. -/
theorem claim_C6_witness :
    marginalizeM traceCfg (fun _ => none) traceOracle (initState traceCfg 1) =
      initState traceCfg 1 :=
  claim_C6 traceCfg (fun _ => none) traceOracle (initState traceCfg 1) (Or.inl rfl)

/-! ## Helper lemmas for the pipeline claims -/

theorem mem_insertSorted {a t : ℤ} {l : List ℤ} :
    a ∈ insertSorted t l ↔ a = t ∨ a ∈ l := by
  induction l with
  | nil => simp [insertSorted]
  | cons y ys ih =>
    rw [insertSorted]
    by_cases h1 : t < y
    · simp [h1]
    · by_cases h2 : t = y
      · subst h2
        simp only [if_neg h1, if_pos rfl]
        constructor
        · intro h; exact Or.inr h
        · intro h
          rcases h with h | h
          · rw [h]; exact List.mem_cons_self _ _
          · exact h
      · simp only [if_neg h1, if_neg h2, List.mem_cons, ih]
        tauto

theorem insertSorted_sorted {t : ℤ} {l : List ℤ} (hs : List.Sorted (· < ·) l) :
    List.Sorted (· < ·) (insertSorted t l) := by
  induction l with
  | nil => simp [insertSorted]
  | cons y ys ih =>
    rw [List.sorted_cons] at hs
    rw [insertSorted]
    by_cases h1 : t < y
    · rw [if_pos h1]
      rw [List.sorted_cons]
      refine ⟨?_, List.sorted_cons.mpr hs⟩
      intro b hb
      rcases List.mem_cons.mp hb with h | h
      · rw [h]; exact h1
      · exact lt_trans h1 (hs.1 b h)
    · by_cases h2 : t = y
      · rw [if_neg h1, if_pos h2]
        exact List.sorted_cons.mpr hs
      · rw [if_neg h1, if_neg h2]
        rw [List.sorted_cons]
        refine ⟨?_, ih hs.2⟩
        intro b hb
        rcases mem_insertSorted.mp hb with h | h
        · rw [h]; omega
        · exact hs.1 b h

theorem insertSorted_append_gt {t : ℤ} {l : List ℤ} (h : ∀ x ∈ l, x < t) :
    insertSorted t l = l ++ [t] := by
  induction l with
  | nil => rfl
  | cons y ys ih =>
    have hy := h y (List.mem_cons_self _ _)
    rw [insertSorted, if_neg (by omega), if_neg (by omega)]
    rw [ih (fun x hx => h x (List.mem_cons_of_mem y hx))]
    rfl

/-- On a strictly sorted list, keeping exactly the elements not below the
head of `drop n` is the same as dropping the first `n`. -/
theorem filter_not_lt_eq_drop {l : List ℤ} (hs : List.Sorted (· < ·) l) {n : ℕ} {v : ℤ}
    (hv : (l.drop n).head? = some v) :
    l.filter (fun t => !decide (t < v)) = l.drop n := by
  have hlt : ∀ x ∈ l.take n, ∀ y ∈ l.drop n, x < y :=
    (List.pairwise_append.mp (by rw [List.take_append_drop n l]; exact hs)).2.2
  obtain ⟨rest, hrest⟩ := List.head?_eq_some_iff.mp hv
  have hdropSorted : List.Sorted (· < ·) (l.drop n) := hs.sublist (List.drop_sublist n l)
  have hge : ∀ y ∈ l.drop n, ¬y < v := by
    intro y hy
    rw [hrest] at hy hdropSorted
    rcases List.mem_cons.mp hy with h | h
    · omega
    · have := (List.sorted_cons.mp hdropSorted).1 y h
      omega
  conv_lhs => rw [← List.take_append_drop n l]
  rw [List.filter_append]
  have h1 : (l.take n).filter (fun t => !decide (t < v)) = [] := by
    rw [List.filter_eq_nil_iff]
    intro a ha
    have : a < v := hlt a ha v (by rw [hrest]; exact List.mem_cons_self _ _)
    simp [this]
  have h2 : (l.drop n).filter (fun t => !decide (t < v)) = l.drop n := by
    rw [List.filter_eq_self]
    intro a ha
    simp [hge a ha]
  rw [h1, h2, List.nil_append]

theorem evictLoop_subset (mk : ℕ) (npc npkf : ℤ → Option ℤ) (score : ℤ → ℚ)
    (vb : Bool) (fuel : ℕ) (l marg : List ℤ) :
    (evictLoop mk npc npkf score vb fuel l marg).1 ⊆ l := by
  induction fuel generalizing l marg with
  | zero => rw [evictLoop]; exact fun _ h => h
  | succ n ih =>
    rw [evictLoop]
    by_cases hg : decide (mk < l.length) && vb
    · rw [if_pos hg]
      match hsel : selectKfE npc npkf score l with
      | some (some id) =>
        exact fun a ha => (l.erase_subset id) (ih (l.erase id) (id :: marg) ha)
      | some none => exact fun _ h => h
      | none => exact fun _ h => h
    · rw [if_neg hg]
      exact fun _ h => h

/-- The greatest element (sitting at the back of the keyframe list)
survives every pass of the eviction loop: each pass only erases an
element of `ids.take (ids.length - 2)`, which never includes the back. -/
theorem evictLoop_mem_last (mk : ℕ) (npc npkf : ℤ → Option ℤ) (score : ℤ → ℚ)
    (vb : Bool) (fuel : ℕ) (t : ℤ) :
    ∀ m marg : List ℤ, t ∉ m →
      t ∈ (evictLoop mk npc npkf score vb fuel (m ++ [t]) marg).1 := by
  induction fuel with
  | zero =>
    intro m marg _
    rw [evictLoop]
    simp
  | succ n ih =>
    intro m marg hm
    rw [evictLoop]
    by_cases hg : decide (mk < (m ++ [t]).length) && vb
    · rw [if_pos hg]
      match hsel : selectKfE npc npkf score (m ++ [t]) with
      | some (some id) =>
        have hmem := selectKfE_mem hsel
        have hlen : (m ++ [t]).length - 2 ≤ m.length := by
          simp only [List.length_append, List.length_singleton]
          omega
        rw [List.take_append_of_le_length hlen] at hmem
        have hid : id ∈ m := List.take_subset _ _ hmem
        have herase : (m ++ [t]).erase id = m.erase id ++ [t] :=
          List.erase_append_left [t] hid
        show t ∈ (evictLoop mk npc npkf score vb n ((m ++ [t]).erase id) (id :: marg)).1
        rw [herase]
        exact ih (m.erase id) (id :: marg)
          (fun hc => hm ((m.erase_subset id) hc))
      | some none => simp
      | none => simp
    · rw [if_neg hg]
      simp

/-- When the eviction loop runs with `states_to_marg_vel_bias` nonempty
and enough fuel, it either brings `kf_ids` within `max_kfs` or flags the
run (selection failure, which for `max_kfs ≥ 2` cannot happen). -/
theorem evictLoop_bound (mk : ℕ) (npc npkf : ℤ → Option ℤ) (score : ℤ → ℚ)
    (fuel : ℕ) :
    ∀ l marg : List ℤ, l.length ≤ fuel →
      (evictLoop mk npc npkf score true fuel l marg).1.length ≤ mk ∨
      (evictLoop mk npc npkf score true fuel l marg).2.2 = false := by
  induction fuel with
  | zero =>
    intro l marg hf
    rw [evictLoop]
    have h0 : l.length = 0 := Nat.le_zero.mp hf
    exact Or.inl (show l.length ≤ mk by omega)
  | succ n ih =>
    intro l marg hf
    rw [evictLoop]
    by_cases hg : mk < l.length
    · rw [if_pos (by simp [hg])]
      match hsel : selectKfE npc npkf score l with
      | some (some id) =>
        have hid : id ∈ l :=
          List.take_subset _ _ (selectKfE_mem hsel)
        have hlen : (l.erase id).length ≤ n := by
          rw [List.length_erase_of_mem hid]
          omega
        exact ih (l.erase id) (id :: marg) hlen
      | some none => exact Or.inr rfl
      | none => exact Or.inr rfl
    · rw [if_neg (by simp [hg])]
      exact Or.inl (show l.length ≤ mk by omega)

/-- Faithfulness of the integer encoding of the keyframe test: with a
positive threshold denominator, `newKfCond` holds exactly when the total
keypoint count is nonzero (the C++ NaN case excluded), the real-valued
ratio `connected0 / (connected0 + unconnected)` is strictly below the
threshold, and `frames_after_kf` exceeds `vio_min_frames_after_kf`. -/
theorem newKfCond_iff (cfg : VioConfigM) (hden : 0 < cfg.kfThreshDen)
    (c0 u : ℕ) (fak : ℤ) :
    newKfCond cfg c0 u fak = true ↔
      (0 < c0 + u ∧
        (c0 : ℚ) / ((c0 : ℚ) + (u : ℚ)) < (cfg.kfThreshNum : ℚ) / (cfg.kfThreshDen : ℚ) ∧
        cfg.min_frames_after_kf < fak) := by
  unfold newKfCond
  simp only [Bool.and_eq_true, decide_eq_true_eq]
  constructor
  · rintro ⟨⟨h1, h2⟩, h3⟩
    refine ⟨h1, ?_, h3⟩
    have hsum : (0 : ℚ) < (c0 : ℚ) + (u : ℚ) := by
      have : (0 : ℚ) < ((c0 + u : ℕ) : ℚ) := by exact_mod_cast h1
      push_cast at this
      linarith
    have hden2 : (0 : ℚ) < (cfg.kfThreshDen : ℚ) := by exact_mod_cast hden
    rw [div_lt_div_iff₀ hsum hden2]
    have h2q : ((c0 : ℤ) : ℚ) * ((cfg.kfThreshDen : ℤ) : ℚ) <
        ((cfg.kfThreshNum : ℤ) : ℚ) * (((c0 : ℤ) : ℚ) + ((u : ℤ) : ℚ)) := by
      exact_mod_cast h2
    push_cast at h2q ⊢
    linarith
  · rintro ⟨h1, h2, h3⟩
    refine ⟨⟨h1, ?_⟩, h3⟩
    have hsum : (0 : ℚ) < (c0 : ℚ) + (u : ℚ) := by
      have : (0 : ℚ) < ((c0 + u : ℕ) : ℚ) := by exact_mod_cast h1
      push_cast at this
      linarith
    have hden2 : (0 : ℚ) < (cfg.kfThreshDen : ℚ) := by exact_mod_cast hden
    rw [div_lt_div_iff₀ hsum hden2] at h2
    have h2q : ((c0 : ℤ) : ℚ) * ((cfg.kfThreshDen : ℤ) : ℚ) <
        ((cfg.kfThreshNum : ℤ) : ℚ) * (((c0 : ℤ) : ℚ) + ((u : ℤ) : ℚ)) := by
      push_cast
      linarith
    exact_mod_cast h2q

theorem optimizeBk_frame_states (s : VioState) :
    (optimizeBk s).frame_states = s.frame_states := by
  unfold optimizeBk
  split <;> rfl

theorem optimizeBk_kf_ids (s : VioState) : (optimizeBk s).kf_ids = s.kf_ids := by
  unfold optimizeBk
  split <;> rfl

theorem optimizeBk_opt_started (s : VioState) (h : s.opt_started = true) :
    (optimizeBk s).opt_started = true := by
  unfold optimizeBk
  rw [h]
  simp

theorem marginalizeM_noop (cfg : VioConfigM) (npc : ℤ → Option ℤ) (or : MargOracle)
    (s : VioState) (hg : margGuard cfg s = false) :
    marginalizeM cfg npc or s = s := by
  unfold marginalizeM
  cases hop : s.opt_started with
  | false => simp
  | true => simp [hg]

theorem marginalizeM_noop_notstarted (cfg : VioConfigM) (npc : ℤ → Option ℤ)
    (or : MargOracle) (s : VioState) (h : s.opt_started = false) :
    marginalizeM cfg npc or s = s := by
  unfold marginalizeM
  rw [h]
  simp

theorem marginalizeM_frame_states (cfg : VioConfigM) (npc : ℤ → Option ℤ)
    (or : MargOracle) (s : VioState) (h1 : s.opt_started = true)
    (hg : margGuard cfg s = true) {last : ℤ}
    (hl : lastStateToMarg cfg s = some last) :
    (marginalizeM cfg npc or s).frame_states =
      s.frame_states.filter (fun t => !decide (t < last)) := by
  simp only [marginalizeM, h1, hg, hl, Bool.not_true, Bool.false_eq_true, if_false, if_true]

theorem marginalizeM_ok_false (cfg : VioConfigM) (npc : ℤ → Option ℤ)
    (or : MargOracle) (s : VioState) (h1 : s.opt_started = true)
    (hg : margGuard cfg s = true) (hl : lastStateToMarg cfg s = none) :
    (marginalizeM cfg npc or s).ok = false := by
  simp only [marginalizeM, h1, hg, hl, Bool.not_true, Bool.false_eq_true, if_false, if_true]

/-- After a marginalisation pass that actually runs, the surviving frame
states are strictly fewer than `max_states` (the bound of the amended
claim C5); `ok = false` covers the runs on which the C++ code aborts. -/
theorem marg_states_bound (cfg : VioConfigM) (npc : ℤ → Option ℤ) (or : MargOracle)
    (s : VioState) (h1 : s.opt_started = true)
    (hs : List.Sorted (· < ·) s.frame_states) :
    (marginalizeM cfg npc or s).ok = false ∨
      (marginalizeM cfg npc or s).frame_states.length < cfg.max_states := by
  cases hg : margGuard cfg s with
  | false =>
    rw [marginalizeM_noop cfg npc or s hg]
    right
    unfold margGuard at hg
    simp only [Bool.or_eq_false_iff, decide_eq_false_iff_not, not_lt, not_le] at hg
    omega
  | true =>
    match hl : lastStateToMarg cfg s with
    | none => exact Or.inl (marginalizeM_ok_false cfg npc or s h1 hg hl)
    | some last =>
      right
      rw [marginalizeM_frame_states cfg npc or s h1 hg hl]
      have hl2 : (s.frame_states.drop (statesToRemove cfg s).toNat).head? = some last := hl
      rw [filter_not_lt_eq_drop hs hl2, List.length_drop]
      have hne : ¬s.frame_states.length ≤ (statesToRemove cfg s).toNat := by
        intro hle
        rw [List.drop_eq_nil_iff.mpr hle] at hl2
        exact absurd hl2 (by simp)
      have hstr : statesToRemove cfg s =
          (s.frame_states.length : ℤ) - (cfg.max_states : ℤ) + 1 := rfl
      omega

/-- After a marginalisation pass whose state eviction contains a keyframe
(`states_to_marg_vel_bias` nonempty), the keyframe set is brought within
`max_kfs` (or the run aborts / spins, `ok = false`). -/
theorem marg_kf_bound (cfg : VioConfigM) (npc : ℤ → Option ℤ) (or : MargOracle)
    (s : VioState) (h1 : s.opt_started = true) (hg : margGuard cfg s = true)
    (hv : statesToMargVelBias cfg s ≠ []) :
    (marginalizeM cfg npc or s).kf_ids.length ≤ cfg.max_kfs ∨
      (marginalizeM cfg npc or s).ok = false := by
  match hl : lastStateToMarg cfg s with
  | none =>
    exact absurd (by unfold statesToMargVelBias; rw [hl]) hv
  | some last =>
    have hvb : (!(statesToMargVelBias cfg s).isEmpty) = true := by
      simp [List.isEmpty_iff, hv]
    have hloop := evictLoop_bound cfg.max_kfs npc (assocFind s.num_points_kf) or.score
      s.kf_ids.length s.kf_ids [] le_rfl
    simp only [marginalizeM, h1, hg, hl, hvb, Bool.not_true, Bool.false_eq_true,
      if_false, if_true]
    rcases hloop with hle | hff
    · exact Or.inl hle
    · right
      rw [hff]
      simp

theorem marginalizeM_kf_subset (cfg : VioConfigM) (npc : ℤ → Option ℤ)
    (or : MargOracle) (s : VioState) :
    (marginalizeM cfg npc or s).kf_ids ⊆ s.kf_ids := by
  unfold marginalizeM
  cases hop : s.opt_started with
  | false => simp
  | true =>
    cases hg : margGuard cfg s with
    | false => simp [hg]
    | true =>
      match hl : lastStateToMarg cfg s with
      | none => simp [hg, hl]
      | some last =>
        simp only [hg, hl, Bool.not_true, Bool.false_eq_true, if_false, if_true]
        exact evictLoop_subset _ _ _ _ _ _ _ _

theorem marginalizeM_kf_mem_last (cfg : VioConfigM) (npc : ℤ → Option ℤ)
    (or : MargOracle) (s : VioState) {m : List ℤ} {t : ℤ}
    (hsh : s.kf_ids = m ++ [t]) (hm : t ∉ m) :
    t ∈ (marginalizeM cfg npc or s).kf_ids := by
  unfold marginalizeM
  cases hop : s.opt_started with
  | false => simp [hsh]
  | true =>
    cases hg : margGuard cfg s with
    | false => simp [hg, hsh]
    | true =>
      match hl : lastStateToMarg cfg s with
      | none => simp [hg, hl, hsh]
      | some last =>
        simp only [hg, hl, Bool.not_true, Bool.false_eq_true, if_false, if_true]
        rw [hsh]
        exact evictLoop_mem_last _ _ _ _ _ _ _ m [] hm

/-! ## Claim C5: window bounds after measure -/

set_option maxRecDepth 10000 in
/-- C5 (counterexample): on the 22-frame run `c5Trace` (keyframes every
third frame), the final `measure` call — long past warm-up
(`opt_started = true`), with no assertion failure or abort (`ok = true`) —
ends with 8 keyframe ids while `max_kfs = 7`: the eviction loop was
skipped because the state marginalised at that call was not a keyframe
(`states_to_marg_vel_bias` empty). -/
theorem claim_C5_counterexample :
    c5Trace.ok = true ∧ c5Trace.opt_started = true ∧
    traceCfg.max_kfs = 7 ∧ c5Trace.kf_ids.length = 8 := by decide

/-- C5 (amended): after every `measure` call past warm-up the number of
frame states satisfies `|frame_states| ≤ max_states` (the code in fact
leaves at most `max_states − 1` when marginalisation runs); and the
keyframe bound `|kf_ids| ≤ max_kfs` holds after any marginalisation pass
whose evicted states include a keyframe (`states_to_marg_vel_bias`
nonempty) — when that set is empty the eviction loop is skipped and
`|kf_ids|` can transiently exceed `max_kfs` (see the counterexample). -/
theorem claim_C5_amended (cfg : VioConfigM) (inp : MeasureInput) (s : VioState)
    (h1 : s.opt_started = true) (hs : List.Sorted (· < ·) s.frame_states) :
    ((measure cfg inp s).ok = false ∨
      (measure cfg inp s).frame_states.length ≤ cfg.max_states) ∧
    (∀ (npc : ℤ → Option ℤ) (or : MargOracle) (s2 : VioState),
      s2.opt_started = true → margGuard cfg s2 = true →
      statesToMargVelBias cfg s2 ≠ [] →
      ((marginalizeM cfg npc or s2).kf_ids.length ≤ cfg.max_kfs ∨
        (marginalizeM cfg npc or s2).ok = false)) := by
  constructor
  · have key : ∀ (u : VioState) (npcv : ℤ → Option ℤ),
        u.opt_started = true → List.Sorted (· < ·) u.frame_states →
        ((marginalizeM cfg npcv inp.margOracle u).ok = false ∨
          (marginalizeM cfg npcv inp.margOracle u).frame_states.length ≤ cfg.max_states) := by
      intro u npcv hu hsu
      rcases marg_states_bound cfg npcv inp.margOracle u hu hsu with h | h
      · exact Or.inl h
      · exact Or.inr h.le
    unfold measure
    apply key
    · show (optimizeBk _).opt_started = true
      apply optimizeBk_opt_started
      repeat' split
      all_goals exact h1
    · rw [optimizeBk_frame_states]
      repeat' split
      all_goals first
        | exact insertSorted_sorted hs
        | exact hs
  · intro npc or s2 h1b hg hv
    exact marg_kf_bound cfg npc or s2 h1b hg hv

set_option maxRecDepth 10000 in
/-- Witness for C5 (amended) at a concrete post-warm-up state (the state
reached by the counterexample trace) and a further frame. -/
theorem claim_C5_amended_witness :
    (measure traceCfg (traceInput 23) c5Trace).ok = false ∨
      (measure traceCfg (traceInput 23) c5Trace).frame_states.length ≤
        traceCfg.max_states :=
  (claim_C5_amended traceCfg (traceInput 23) c5Trace (by decide) (by decide)).1

/-! ## Claims C3, C10: the keyframe decision -/

/-- C3 (counterexample): on the first frame the keyframe condition is
false (no observations, `0/0 < thresh` is false), yet `measure` promotes
the frame to a keyframe — `take_kf` is still true from the constructor —
so promotion is not equivalent to the stated condition. -/
theorem claim_C3_counterexample :
    (measure traceCfg c3Input (initState traceCfg 1)).kf_ids = [1] ∧
    newKfCond traceCfg (connected0 (initState traceCfg 1).lm_hosts c3Input.obs)
      (unconnected0 (initState traceCfg 1).lm_hosts c3Input.obs).length
      (initState traceCfg 1).frames_after_kf = false := by decide

/-- C3 (amended): on every `measure` call entered with `take_kf = false`
(every call after the first, since the flag is consumed by the first
call and only ever set again by this same condition), with a
preintegration present and a fresh (strictly newest) timestamp, the frame
is promoted to a keyframe if and only if
`connected0 / (connected0 + |unconnected_obs0|) < vio_new_kf_keypoints_thresh`
and `frames_after_kf > vio_min_frames_after_kf`. -/
theorem claim_C3_amended (cfg : VioConfigM) (inp : MeasureInput) (s : VioState)
    (h0 : s.take_kf = false) (h1 : inp.hasImu = true)
    (h2 : ∀ x ∈ s.kf_ids, x < inp.t) :
    inp.t ∈ (measure cfg inp s).kf_ids ↔
      newKfCond cfg (connected0 s.lm_hosts inp.obs)
        (unconnected0 s.lm_hosts inp.obs).length s.frames_after_kf = true := by
  have hnotmem : inp.t ∉ s.kf_ids := fun hx => absurd (h2 _ hx) (lt_irrefl _)
  unfold measure
  rw [h1]
  simp only [if_true, h0, Bool.false_or]
  by_cases hc : newKfCond cfg (connected0 s.lm_hosts inp.obs)
      (unconnected0 s.lm_hosts inp.obs).length s.frames_after_kf = true
  · rw [if_pos hc]
    simp only [hc, iff_true]
    refine marginalizeM_kf_mem_last cfg _ inp.margOracle _
      (m := s.kf_ids) (t := inp.t) ?_ hnotmem
    show (optimizeBk _).kf_ids = _
    rw [optimizeBk_kf_ids]
    show insertSorted inp.t s.kf_ids = _
    exact insertSorted_append_gt h2
  · rw [if_neg hc]
    simp only [hc, Bool.false_eq_true, iff_false]
    intro hmem
    have hsub := marginalizeM_kf_subset cfg
      (assocFind (buildNpc s.lm_hosts inp.obs)) inp.margOracle _ hmem
    rw [optimizeBk_kf_ids] at hsub
    exact hnotmem hsub

/-- Witness for C3 (amended): a second frame (timestamp 2, `take_kf`
consumed by frame 1) with no observations is not promoted. -/
theorem claim_C3_amended_witness :
    ¬((2 : ℤ) ∈ (measure traceCfg (traceInput 2)
        (measure traceCfg c3Input (initState traceCfg 1))).kf_ids) := by
  have h := claim_C3_amended traceCfg (traceInput 2)
    (measure traceCfg c3Input (initState traceCfg 1))
    (by decide) (by decide) (by decide)
  intro hmem
  have := h.mp hmem
  revert this
  decide

/-- C10: the first visual frame is always promoted to a keyframe —
whatever its observations, the keypoint-ratio and frames-after-keyframe
thresholds — because `take_kf` is initialised true by the constructor:
its timestamp becomes the only keyframe id and `num_points_kf` records
its (attempted) triangulation count. -/
theorem claim_C10 (cfg : VioConfigM) (inp : MeasureInput) (t0 : ℤ)
    (h1 : inp.hasImu = false) :
    (measure cfg inp (initState cfg t0)).kf_ids = [t0] ∧
    assocFind (measure cfg inp (initState cfg t0)).num_points_kf inp.t ≠ none := by
  unfold measure
  rw [h1]
  simp only [Bool.false_eq_true, if_false]
  have htk : (initState cfg t0).take_kf = true := rfl
  rw [htk]
  simp only [Bool.true_or, if_true]
  have hopt : optimizeBk
      { initState cfg t0 with
        take_kf := false
        frames_after_kf := 0
        kf_ids := insertSorted (initState cfg t0).last_state_t (initState cfg t0).kf_ids
        lm_hosts := (initState cfg t0).lm_hosts ++
          ((unconnected0 (initState cfg t0).lm_hosts inp.obs).filter inp.triOk).map
            (fun k => (k, inp.t))
        num_points_kf := assocSet (initState cfg t0).num_points_kf inp.t
          (((unconnected0 (initState cfg t0).lm_hosts inp.obs).filter inp.triOk).length : ℤ) } =
      { initState cfg t0 with
        take_kf := false
        frames_after_kf := 0
        kf_ids := insertSorted (initState cfg t0).last_state_t (initState cfg t0).kf_ids
        lm_hosts := (initState cfg t0).lm_hosts ++
          ((unconnected0 (initState cfg t0).lm_hosts inp.obs).filter inp.triOk).map
            (fun k => (k, inp.t))
        num_points_kf := assocSet (initState cfg t0).num_points_kf inp.t
          (((unconnected0 (initState cfg t0).lm_hosts inp.obs).filter inp.triOk).length : ℤ) } := by
    unfold optimizeBk
    rw [if_neg]
    simp [initState]
  rw [hopt]
  constructor
  · show (marginalizeM _ _ _ _).kf_ids = _
    rw [marginalizeM_noop_notstarted]
    · rfl
    · rfl
  · show ¬assocFind (marginalizeM _ _ _ _).num_points_kf inp.t = none
    rw [marginalizeM_noop_notstarted]
    · show ¬assocFind (assocSet [] inp.t _) inp.t = none
      simp [assocSet, assocFind, List.find?]
    · rfl

/-- Witness for C10 at the concrete first frame of the trace. -/
theorem claim_C10_witness :
    (measure traceCfg (traceInput 1) (initState traceCfg 1)).kf_ids = [1] ∧
    assocFind (measure traceCfg (traceInput 1)
      (initState traceCfg 1)).num_points_kf (traceInput 1).t ≠ none :=
  claim_C10 traceCfg (traceInput 1) 1 (by decide)

end KeypointVio
